import Mathlib

/-!
Shallow embedding of the core of the `cascade` repository:
the recipe-to-job graph compiler, the identity model, the job
readiness/mock contract (`src/cascade/runner/job_graph.py`) and the
sub-graph selection of `src/cascade/executor/dismodel_main.py`.

Python exceptions are modelled by the `PyError` inductive; a fallible
Python function becomes a Lean function into `Except PyError _`.
Python `dict`s become association lists that keep insertion order
(Python dicts are ordered); `networkx.DiGraph` becomes an explicit
structure of a node list (with attributes), an edge list and a
graph-attribute record, with the set semantics (deduplicating
insertion) of networkx spelled out in the `add*` operations.
-/

deriving instance DecidableEq for Except

namespace Cascade

/-- Python exception classes raised by the code under study.
`runtimeError` is `RuntimeError(str)`, `runtimeErrorData` is
`RuntimeError(dict)` as raised by `CascadeJob.mock_run` (the argument is
the missing-input mapping), `assertionError` is an `assert` failure,
`attributeError` and `keyError` model the interpreter-raised lookups. -/
inductive PyError where
  | assertionError (msg : String)
  | attributeError (msg : String)
  | runtimeError (msg : String)
  | runtimeErrorData (data : List (String × String))
  | keyError (msg : String)
deriving DecidableEq

/-- Model of `RecipeIdentifier` of `runner/job_graph.py`: location, recipe name, sex. -/
structure RecipeIdentifier where
  location_id : Int
  recipe : String
  sex : String
deriving DecidableEq

/-- Model of `JobIdentifier` of `runner/job_graph.py`: a `RecipeIdentifier` plus the
job name (Python models it as a subclass; the flat record carries the same
four fields). -/
structure JobIdentifier where
  location_id : Int
  recipe : String
  sex : String
  name : String
deriving DecidableEq

/-- Model of `JobIdentifier.__init__(recipe_identifier, name)`. -/
def JobIdentifier.ofRecipe (r : RecipeIdentifier) (name : String) : JobIdentifier :=
  { location_id := r.location_id, recipe := r.recipe, sex := r.sex, name := name }

/-- The set `{"male", "female", "both"}` from `RecipeIdentifier.__init__`. -/
def allowed_sexes : List String := ["male", "female", "both"]

/-- Model of `RecipeIdentifier.__init__`: `assert sex in allowed_sexes` then
`assert recipe not in allowed_sexes` (the `isinstance` asserts are
enforced by the Lean types).  A failing `assert` raises `AssertionError`
with no message. -/
def RecipeIdentifier.init (location_id : Int) (recipe sex : String) :
    Except PyError RecipeIdentifier :=
  if sex ∈ allowed_sexes then
    if recipe ∈ allowed_sexes then
      .error (.assertionError "")
    else
      .ok { location_id := location_id, recipe := recipe, sex := sex }
  else
    .error (.assertionError "")

/-- Model of `RecipeIdentifier.__repr__`. -/
def reprRecipeIdentifier (r : RecipeIdentifier) : String :=
  "RecipeIdentifier(" ++ toString r.location_id ++ ", " ++ r.recipe ++ ", " ++ r.sex ++ ")"

/-- Model of `JobIdentifier.__str__`:
`f"{self.location_id}_{self.recipe}_{self.sex}_{self.name}"`. -/
def jobIdentifierStr (j : JobIdentifier) : String :=
  toString j.location_id ++ "_" ++ j.recipe ++ "_" ++ j.sex ++ "_" ++ j.name

/-- Underscore-joining of a list of strings; used to state what
`JobIdentifier.__str__` renders, independently of how the f-string
concatenates. -/
def joinUnderscore : List String → String
  | [] => ""
  | [x] => x
  | x :: y :: rest => x ++ "_" ++ joinUnderscore (y :: rest)

/-- Rendering in the order the spec words claim
(`location_sex_recipe_name`): location, sex, recipe, name.  This follows
the spec text, to be compared with `jobIdentifierStr` from the source. -/
def specRenderLocationSexRecipeName (j : JobIdentifier) : String :=
  joinUnderscore [toString j.location_id, j.sex, j.recipe, j.name]

/-! ### Python object model for identifier equality

`RecipeIdentifier.__eq__` compares the three recipe fields after an
`isinstance(other, RecipeIdentifier)` check; `JobIdentifier.__eq__` is
`RecipeIdentifier.__eq__(self, other) and self.name == other.name`.
`IdentObj` is the universe of the two classes; both variants satisfy the
`isinstance(_, RecipeIdentifier)` check, since `JobIdentifier` subclasses
`RecipeIdentifier`. -/

/-- A runtime object that is either a plain `RecipeIdentifier` instance or
a `JobIdentifier` instance. -/
inductive IdentObj where
  | recipeObj (r : RecipeIdentifier)
  | jobObj (j : JobIdentifier)
deriving DecidableEq

def identLocation : IdentObj → Int
  | .recipeObj r => r.location_id
  | .jobObj j => j.location_id

def identRecipe : IdentObj → String
  | .recipeObj r => r.recipe
  | .jobObj j => j.recipe

def identSex : IdentObj → String
  | .recipeObj r => r.sex
  | .jobObj j => j.sex

/-- The interpreter message for the failing `name` lookup. -/
def noNameAttributeMsg : String :=
  "\x27RecipeIdentifier\x27 object has no attribute \x27name\x27"

/-- Model of `getattr(obj, "name")`: the `name` property exists only on
`JobIdentifier`; on a plain `RecipeIdentifier` the lookup raises
`AttributeError`. -/
def identName : IdentObj → Except PyError String
  | .recipeObj _ => .error (.attributeError noNameAttributeMsg)
  | .jobObj j => .ok j.name

/-- Body of `RecipeIdentifier.__eq__` after the `isinstance` check (which
both variants pass): `all(getattr(self, x) == getattr(other, x) for x in
["location_id", "recipe", "sex"])`. -/
def recipeFieldsEq (a b : IdentObj) : Bool :=
  identLocation a == identLocation b &&
    (identRecipe a == identRecipe b && (identSex a == identSex b))

/-- The `__eq__` method found on the object by the MRO: for a plain
`RecipeIdentifier`, `RecipeIdentifier.__eq__`; for a `JobIdentifier`,
`JobIdentifier.__eq__`, which short-circuits on the three recipe fields
and then evaluates `self.name == other.name`. -/
def identDunderEq (a b : IdentObj) : Except PyError Bool :=
  match a with
  | .recipeObj _ => .ok (recipeFieldsEq a b)
  | .jobObj j =>
      if recipeFieldsEq a b then
        match identName b with
        | .ok n2 => .ok (j.name == n2)
        | .error e => .error e
      else
        .ok false

/-- The Python `==` operator on the two identifier classes.  CPython gives
priority to the RIGHT operand when its type is a proper subclass of the
left operand type and overrides the comparison, so `recipe == job`
dispatches to `JobIdentifier.__eq__(job, recipe)` first.  Neither method
ever returns `NotImplemented` (`RecipeIdentifier.__eq__` returns `False`
for foreign types), so no fallback path is reachable. -/
def pyEqOp (a b : IdentObj) : Except PyError Bool :=
  match a, b with
  | .recipeObj _, .jobObj _ => identDunderEq b a
  | _, _ => identDunderEq a b

/-! ### Job contract -/

/-- An input/output entity (external collaborator): only its
`validate(execution_context)` result, `None` when satisfied or a reason
string otherwise, is observable to the code under study; `mock` is a side
effect whose invocation is recorded by name in the `mock_run` trace. -/
structure Entity (Ctx : Type) where
  validate : Ctx → Option String

/-- Model of `CascadeJob`: name, owning recipe identifier, declared inputs and
outputs (ordered mappings name to entity), multiplicity. -/
structure CascadeJob (Ctx : Type) where
  name : String
  recipe : RecipeIdentifier
  inputs : List (String × Entity Ctx) := []
  outputs : List (String × Entity Ctx) := []
  multiplicity : Nat := 1

variable {Ctx : Type}

/-- Model of `CascadeJob.job_identifier` = `JobIdentifier(self.recipe, self.name)`. -/
def CascadeJob.job_identifier (job : CascadeJob Ctx) : JobIdentifier :=
  JobIdentifier.ofRecipe job.recipe job.name

/-- Model of `CascadeJob.entity_missing`: collect `(name, validate result)` for the
entities whose `validate` returns a reason string, in declaration order. -/
def entity_missing (ctx : Ctx) (ios : List (String × Entity Ctx)) :
    List (String × String) :=
  ios.filterMap fun p => (p.2.validate ctx).map fun v => (p.1, v)

/-- Model of `CascadeJob.input_missing`. -/
def CascadeJob.input_missing (job : CascadeJob Ctx) (ctx : Ctx) :
    List (String × String) :=
  entity_missing ctx job.inputs

/-- Model of `CascadeJob.output_missing`. -/
def CascadeJob.output_missing (job : CascadeJob Ctx) (ctx : Ctx) :
    List (String × String) :=
  entity_missing ctx job.outputs

/-- Model of `CascadeJob.mock_run`.  The first component is the trace of outputs
whose `mock(execution_context)` was invoked, in order; the second is the
raised exception, if any.  The code raises `RuntimeError(missing)` when
`check_inputs` holds and some input is missing, before any output is
mocked; otherwise it mocks every declared output. -/
def CascadeJob.mock_run (job : CascadeJob Ctx) (ctx : Ctx) (check_inputs : Bool) :
    List String × Option PyError :=
  if check_inputs then
    let missing := job.input_missing ctx
    if missing.isEmpty then
      (job.outputs.map Prod.fst, none)
    else
      ([], some (.runtimeErrorData missing))
  else
    (job.outputs.map Prod.fst, none)

/-! ### The job graph (`networkx.DiGraph` with `JobIdentifier` nodes)

Nodes are an ordered association list from `JobIdentifier` to the node
attribute (the `job=` entry, absent for a node auto-added by `add_edge`);
edges are an ordered list without duplicates (networkx ignores re-adding
an existing edge); `graph` is the graph-attribute dict, which for the job
graph holds at most the keys `root` and `execution_context`. -/

/-- The graph-attribute dict of a job graph. -/
structure JobGraphAttrs (Ctx : Type) where
  root : Option JobIdentifier := none
  execution_context : Option Ctx := none

/-- Model of `networkx.DiGraph` as used for the job graph. -/
structure JobGraph (Ctx : Type) where
  nodes : List (JobIdentifier × Option (CascadeJob Ctx)) := []
  edges : List (JobIdentifier × JobIdentifier) := []
  graph : JobGraphAttrs Ctx := {}

/-- Whether `n` is already a node of the graph. -/
def JobGraph.hasNode (g : JobGraph Ctx) (n : JobIdentifier) : Bool :=
  g.nodes.any fun p => p.1 = n

/-- Model of `add_node` and of one element of `add_nodes_from` with an attribute: update
the attribute in place if the node exists, else append. -/
def JobGraph.addNode (g : JobGraph Ctx) (n : JobIdentifier) (a : Option (CascadeJob Ctx)) :
    JobGraph Ctx :=
  if g.hasNode n then
    { g with nodes := g.nodes.map fun p => if p.1 = n then (n, a) else p }
  else
    { g with nodes := g.nodes ++ [(n, a)] }

/-- Model of `add_nodes_from`. -/
def JobGraph.addNodesFrom (g : JobGraph Ctx)
    (l : List (JobIdentifier × Option (CascadeJob Ctx))) : JobGraph Ctx :=
  l.foldl (fun g p => g.addNode p.1 p.2) g

/-- Append a node with an empty attribute dict when absent (the implicit
node creation of `add_edge`). -/
def ensureNode (nodes : List (JobIdentifier × Option (CascadeJob Ctx)))
    (n : JobIdentifier) : List (JobIdentifier × Option (CascadeJob Ctx)) :=
  if nodes.any (fun p => p.1 = n) then nodes else nodes ++ [(n, none)]

/-- Model of `add_edge u v`: add missing endpoints (u first), then the edge unless
it is already present. -/
def JobGraph.addEdge (g : JobGraph Ctx) (u v : JobIdentifier) : JobGraph Ctx :=
  { nodes := ensureNode (ensureNode g.nodes u) v,
    edges := if (u, v) ∈ g.edges then g.edges else g.edges ++ [(u, v)],
    graph := g.graph }

/-- Model of `add_edges_from`. -/
def JobGraph.addEdgesFrom (g : JobGraph Ctx)
    (l : List (JobIdentifier × JobIdentifier)) : JobGraph Ctx :=
  l.foldl (fun g e => g.addEdge e.1 e.2) g

/-! ### The recipe graph and the compiler -/

/-- The recipe graph handed to `recipe_graph_to_job_graph`: nodes with
their `job_list` attribute, edges, and the `root` graph attribute (the
RecipeGraph provider contract guarantees this attribute is present). -/
structure RecipeGraph (Ctx : Type) where
  nodes : List (RecipeIdentifier × List (CascadeJob Ctx))
  edges : List (RecipeIdentifier × RecipeIdentifier)
  root : RecipeIdentifier

/-- Python dict assignment `d[k] = v`: replace the entry in place when
the key is present (dict keys are unique, so at most the first entry
matches), else append the new entry at the end (Python dicts keep
insertion order). -/
def dictSet {α : Type} (d : List (RecipeIdentifier × α)) (k : RecipeIdentifier) (v : α) :
    List (RecipeIdentifier × α) :=
  match d with
  | [] => [(k, v)]
  | p :: t => if p.1 = k then (k, v) :: t else p :: dictSet t k v

/-- Python dict subscript `d[k]`: `KeyError` when absent. -/
def dictFind {α : Type} (d : List (RecipeIdentifier × α)) (k : RecipeIdentifier) :
    Except PyError α :=
  match d with
  | [] => .error (.keyError (reprRecipeIdentifier k))
  | p :: t => if p.1 = k then .ok p.2 else dictFind t k

/-- Model of `[job_node.job_identifier for job_node in job_list]`. -/
def jobIds (jl : List (CascadeJob Ctx)) : List JobIdentifier :=
  jl.map CascadeJob.job_identifier

/-- Model of `zip(job_ids[:-1], job_ids[1:])`: the consecutive in-recipe edges
(`List.zip` stops at the shorter list, so zipping with the tail equals
zipping the init with the tail). -/
def withinEdges (jl : List (CascadeJob Ctx)) : List (JobIdentifier × JobIdentifier) :=
  (jobIds jl).zip (jobIds jl).tail

/-- First element `job_ids[0]` of a recipe (its boundary input job), when it exists. -/
def recipeIn (jl : List (CascadeJob Ctx)) : Option JobIdentifier :=
  (jobIds jl).head?

/-- Last element `job_ids[-1]` of a recipe (its boundary output job), when it exists. -/
def recipeOut (jl : List (CascadeJob Ctx)) : Option JobIdentifier :=
  (jobIds jl).getLast?

/-- The message of the `RuntimeError` raised for an empty `job_list`. -/
def emptyRecipeMsg (rid : RecipeIdentifier) : String :=
  "Recipe " ++ reprRecipeIdentifier rid ++ " doesn\x27t have any sub-jobs."

/-- State accumulated by the loop of `recipe_graph_to_job_graph`: the
`recipe_edges` dict (recipe to its (input, output) boundary pair) and the
job graph under construction (whose `root` graph attribute the loop may
set). -/
structure CompileState (Ctx : Type) where
  recipe_edges : List (RecipeIdentifier × (JobIdentifier × JobIdentifier)) := []
  job_graph : JobGraph Ctx := {}

/-- One loop iteration of `recipe_graph_to_job_graph` on a recipe node
whose `job_list` is non-empty: add the job nodes, chain them, record the
boundary pair, and mark the root job when this recipe is the designated
root. -/
def processNonempty (rg_root : RecipeIdentifier) (st : CompileState Ctx)
    (k : RecipeIdentifier) (j0 : CascadeJob Ctx) (rest : List (CascadeJob Ctx)) :
    CompileState Ctx :=
  let job_ids := jobIds (j0 :: rest)
  let g1 := st.job_graph.addNodesFrom (job_ids.zip ((j0 :: rest).map some))
  let g2 := g1.addEdgesFrom (job_ids.zip job_ids.tail)
  let g3 :=
    if k = rg_root then
      { g2 with graph := { g2.graph with root := some j0.job_identifier } }
    else g2
  { recipe_edges := dictSet st.recipe_edges k (j0.job_identifier, job_ids.getLastD j0.job_identifier),
    job_graph := g3 }

/-- One loop iteration of `recipe_graph_to_job_graph`: raise
`RuntimeError` when the recipe has no sub-jobs, else `processNonempty`. -/
def processRecipeNode (rg_root : RecipeIdentifier) (st : CompileState Ctx)
    (node : RecipeIdentifier × List (CascadeJob Ctx)) :
    Except PyError (CompileState Ctx) :=
  match node.2 with
  | [] => .error (.runtimeError (emptyRecipeMsg node.1))
  | j0 :: rest => .ok (processNonempty rg_root st node.1 j0 rest)

/-- The `for copy_identifier in recipe_graph.nodes` loop. -/
def processRecipeNodes (rg_root : RecipeIdentifier) :
    CompileState Ctx → List (RecipeIdentifier × List (CascadeJob Ctx)) →
    Except PyError (CompileState Ctx)
  | st, [] => .ok st
  | st, n :: rest =>
    match processRecipeNode rg_root st n with
    | .error e => .error e
    | .ok st2 => processRecipeNodes rg_root st2 rest

/-- The list comprehension
`[(recipe_edges[start]["output"], recipe_edges[finish]["input"]) for
(start, finish) in recipe_graph.edges]`. -/
def crossEdges (re : List (RecipeIdentifier × (JobIdentifier × JobIdentifier))) :
    List (RecipeIdentifier × RecipeIdentifier) →
    Except PyError (List (JobIdentifier × JobIdentifier))
  | [] => .ok []
  | e :: rest =>
    match dictFind re e.1 with
    | .error err => .error err
    | .ok pStart =>
      match dictFind re e.2 with
      | .error err => .error err
      | .ok pFinish =>
        match crossEdges re rest with
        | .error err => .error err
        | .ok tail => .ok ((pStart.2, pFinish.1) :: tail)

/-- Model of `recipe_graph_to_job_graph`: run the loop, assert a root was found
(`AssertionError` otherwise), then add the cross-recipe boundary edges. -/
def recipe_graph_to_job_graph (rg : RecipeGraph Ctx) : Except PyError (JobGraph Ctx) :=
  match processRecipeNodes rg.root {} rg.nodes with
  | .error e => .error e
  | .ok st =>
    if st.job_graph.graph.root.isNone then
      .error (.assertionError "Could not find a root node for the graph")
    else
      match crossEdges st.recipe_edges rg.edges with
      | .error e => .error e
      | .ok ce => .ok (st.job_graph.addEdgesFrom ce)

/-! ### Sub-graph selection (`Application.sub_graph_to_run`) -/

/-- The four optional selectors of the `sub_graph` argument group.  A
`none` field models the key being absent from the argument namespace,
which is what `search in args` tests. -/
structure SubGraphArgs where
  location_id : Option Int := none
  recipe : Option String := none
  sex : Option String := none
  name : Option String := none

/-- The loop `for search in ["location_id", "recipe", "sex", "name"]:
if search in args: nodes = [n for n in nodes if getattr(n, search) ==
getattr(args, search)]`. -/
def filterNodes (args : SubGraphArgs) (nodes : List JobIdentifier) : List JobIdentifier :=
  let nodes :=
    match args.location_id with
    | some v => nodes.filter fun n => n.location_id = v
    | none => nodes
  let nodes :=
    match args.recipe with
    | some v => nodes.filter fun n => n.recipe = v
    | none => nodes
  let nodes :=
    match args.sex with
    | some v => nodes.filter fun n => n.sex = v
    | none => nodes
  match args.name with
  | some v => nodes.filter fun n => n.name = v
  | none => nodes

/-- Model of `nx.subgraph(job_graph, nodes)`: the induced subgraph on the listed
nodes.  The returned object shares its graph-attribute dict with the
parent graph (networkx sets `H.graph = G.graph`); the sharing is made
explicit in `sub_graph_to_run`. -/
def nxSubgraph (g : JobGraph Ctx) (ns : List JobIdentifier) : JobGraph Ctx :=
  { nodes := g.nodes.filter fun p => p.1 ∈ ns,
    edges := g.edges.filter fun e => e.1 ∈ ns ∧ e.2 ∈ ns,
    graph := g.graph }

/-- The conjunction of the supplied predicates, as the spec states it: a
node is selected when every supplied attribute equals the node attribute,
an omitted attribute imposing no constraint.  Stated from the spec words,
to be compared with the filtering the code performs. -/
def matchesPredicates (args : SubGraphArgs) (n : JobIdentifier) : Bool :=
  (args.location_id.all fun v => n.location_id == v) &&
    ((args.recipe.all fun v => n.recipe == v) &&
      ((args.sex.all fun v => n.sex == v) && (args.name.all fun v => n.name == v)))

/-- Model of `Application.sub_graph_to_run` from the compiled job graph on: filter
the node keys, take `nx.subgraph`, then
`sub_graph.graph["execution_context"] = self.execution_context`.  Because
the networkx subgraph shares the graph-attribute dict with the parent
graph, that assignment is visible through the parent as well; the pure
embedding returns the pair (sub graph, parent graph after the call). -/
def sub_graph_to_run (g : JobGraph Ctx) (args : SubGraphArgs) (execution_context : Ctx) :
    JobGraph Ctx × JobGraph Ctx :=
  let nodes := filterNodes args (g.nodes.map Prod.fst)
  let sub := nxSubgraph g nodes
  let shared : JobGraphAttrs Ctx :=
    { sub.graph with execution_context := some execution_context }
  ({ sub with graph := shared }, { g with graph := shared })

/-! ### Concrete instances used by the witness theorems

The two-recipe scenario of the spec: recipe `(1, "fit", "both")` with
jobs A, B; recipe `(2, "fit", "both")` with jobs C, D; one recipe edge;
the first recipe is the root. -/

def exRid1 : RecipeIdentifier := { location_id := 1, recipe := "fit", sex := "both" }

def exRid2 : RecipeIdentifier := { location_id := 2, recipe := "fit", sex := "both" }

def exJob (r : RecipeIdentifier) (nm : String) : CascadeJob Unit :=
  { name := nm, recipe := r }

def exRecipeGraph : RecipeGraph Unit :=
  { nodes := [(exRid1, [exJob exRid1 "A", exJob exRid1 "B"]),
              (exRid2, [exJob exRid2 "C", exJob exRid2 "D"])],
    edges := [(exRid1, exRid2)],
    root := exRid1 }

/-- A recipe graph with an empty `job_list` on its only node. -/
def exEmptyRecipeGraph : RecipeGraph Unit :=
  { nodes := [(exRid1, [])], edges := [], root := exRid1 }

/-- A job with one input whose `validate` reports "file missing" and two
outputs whose `validate` is satisfied. -/
def exJobMissing : CascadeJob Unit :=
  { name := "fit", recipe := exRid1,
    inputs := [("draw_file", { validate := fun _ => some "file missing" })],
    outputs := [("out1", { validate := fun _ => none }),
                ("out2", { validate := fun _ => none })] }

/-! ## Helper lemmas -/

theorem strAppendAssoc (a b c : String) : a ++ b ++ c = a ++ (b ++ c) := by
  rcases a with ⟨da⟩
  rcases b with ⟨db⟩
  rcases c with ⟨dc⟩
  show String.mk (da ++ db ++ dc) = String.mk (da ++ (db ++ dc))
  rw [List.append_assoc]

/-- Filtering the node list through the four sequential selector filters
keeps exactly the nodes matching every supplied predicate. -/
theorem mem_filterNodes (args : SubGraphArgs) (l : List JobIdentifier) (n : JobIdentifier) :
    n ∈ filterNodes args l ↔ n ∈ l ∧ matchesPredicates args n = true := by
  obtain ⟨lo, re, se, na⟩ := args
  cases lo <;> cases re <;> cases se <;> cases na <;>
    simp [filterNodes, matchesPredicates, List.mem_filter, Option.all,
      Bool.and_eq_true, decide_eq_true_eq, beq_iff_eq, and_assoc] <;>
    tauto

theorem edges_addNode (g : JobGraph Ctx) (n : JobIdentifier) (a : Option (CascadeJob Ctx)) :
    (g.addNode n a).edges = g.edges := by
  unfold JobGraph.addNode
  split <;> rfl

theorem graph_addNode (g : JobGraph Ctx) (n : JobIdentifier) (a : Option (CascadeJob Ctx)) :
    (g.addNode n a).graph = g.graph := by
  unfold JobGraph.addNode
  split <;> rfl

theorem addNodesFrom_cons (g : JobGraph Ctx) (p : JobIdentifier × Option (CascadeJob Ctx))
    (t : List (JobIdentifier × Option (CascadeJob Ctx))) :
    g.addNodesFrom (p :: t) = (g.addNode p.1 p.2).addNodesFrom t := rfl

theorem edges_addNodesFrom (g : JobGraph Ctx)
    (l : List (JobIdentifier × Option (CascadeJob Ctx))) :
    (g.addNodesFrom l).edges = g.edges := by
  induction l generalizing g with
  | nil => rfl
  | cons p t ih => rw [addNodesFrom_cons, ih, edges_addNode]

theorem graph_addNodesFrom (g : JobGraph Ctx)
    (l : List (JobIdentifier × Option (CascadeJob Ctx))) :
    (g.addNodesFrom l).graph = g.graph := by
  induction l generalizing g with
  | nil => rfl
  | cons p t ih => rw [addNodesFrom_cons, ih, graph_addNode]

theorem graph_addEdge (g : JobGraph Ctx) (u v : JobIdentifier) :
    (g.addEdge u v).graph = g.graph := rfl

theorem mem_edges_addEdge (g : JobGraph Ctx) (u v : JobIdentifier)
    (e : JobIdentifier × JobIdentifier) :
    e ∈ (g.addEdge u v).edges ↔ e ∈ g.edges ∨ e = (u, v) := by
  show e ∈ (if (u, v) ∈ g.edges then g.edges else g.edges ++ [(u, v)]) ↔ _
  split
  · rename_i hmem
    exact ⟨Or.inl, fun h => h.elim id (fun he => he ▸ hmem)⟩
  · simp [List.mem_append]

theorem nodup_edges_addEdge (g : JobGraph Ctx) (u v : JobIdentifier)
    (h : g.edges.Nodup) : (g.addEdge u v).edges.Nodup := by
  show (if (u, v) ∈ g.edges then g.edges else g.edges ++ [(u, v)]).Nodup
  split
  · exact h
  · rename_i hmem
    simp [List.nodup_append, h, hmem]

theorem addEdgesFrom_cons (g : JobGraph Ctx) (e : JobIdentifier × JobIdentifier)
    (t : List (JobIdentifier × JobIdentifier)) :
    g.addEdgesFrom (e :: t) = (g.addEdge e.1 e.2).addEdgesFrom t := rfl

theorem graph_addEdgesFrom (g : JobGraph Ctx) (l : List (JobIdentifier × JobIdentifier)) :
    (g.addEdgesFrom l).graph = g.graph := by
  induction l generalizing g with
  | nil => rfl
  | cons p t ih => rw [addEdgesFrom_cons, ih, graph_addEdge]

theorem mem_edges_addEdgesFrom (g : JobGraph Ctx) (l : List (JobIdentifier × JobIdentifier))
    (e : JobIdentifier × JobIdentifier) :
    e ∈ (g.addEdgesFrom l).edges ↔ e ∈ g.edges ∨ e ∈ l := by
  induction l generalizing g with
  | nil => simp [JobGraph.addEdgesFrom]
  | cons p t ih =>
    rw [addEdgesFrom_cons, ih, mem_edges_addEdge]
    simp [List.mem_cons, or_assoc]

theorem nodup_edges_addEdgesFrom (g : JobGraph Ctx)
    (l : List (JobIdentifier × JobIdentifier)) (h : g.edges.Nodup) :
    (g.addEdgesFrom l).edges.Nodup := by
  induction l generalizing g with
  | nil => exact h
  | cons p t ih => exact addEdgesFrom_cons g p t ▸ ih _ (nodup_edges_addEdge g p.1 p.2 h)

theorem dictFind_dictSet_self {α : Type} (d : List (RecipeIdentifier × α))
    (k : RecipeIdentifier) (v : α) : dictFind (dictSet d k v) k = .ok v := by
  induction d with
  | nil => simp [dictSet, dictFind]
  | cons p t ih => by_cases hp : p.1 = k <;> simp [dictSet, dictFind, hp, ih]

theorem dictFind_dictSet_ne {α : Type} (d : List (RecipeIdentifier × α))
    (k k2 : RecipeIdentifier) (v : α) (h : k2 ≠ k) :
    dictFind (dictSet d k v) k2 = dictFind d k2 := by
  induction d with
  | nil => simp [dictSet, dictFind, Ne.symm h]
  | cons p t ih =>
    by_cases hp : p.1 = k
    · simp [dictSet, dictFind, hp, Ne.symm h, ih]
    · simp only [dictSet, hp, if_false, dictFind, ih]

theorem getLast?_cons_eq_getLastD {α : Type} (x : α) (t : List α) (d : α) :
    (x :: t).getLast? = some ((x :: t).getLastD d) := by
  induction t generalizing x with
  | nil => rfl
  | cons y t ih =>
    rw [List.getLast?_cons_cons, ih y]
    simp [List.getLastD_cons]

/-! ### Invariants of the compiler loop -/

theorem processNonempty_recipe_edges (r : RecipeIdentifier) (st : CompileState Ctx)
    (k : RecipeIdentifier) (j0 : CascadeJob Ctx) (rest : List (CascadeJob Ctx)) :
    (processNonempty r st k j0 rest).recipe_edges =
      dictSet st.recipe_edges k
        (j0.job_identifier, (jobIds (j0 :: rest)).getLastD j0.job_identifier) := rfl

theorem processNonempty_root (r : RecipeIdentifier) (st : CompileState Ctx)
    (k : RecipeIdentifier) (j0 : CascadeJob Ctx) (rest : List (CascadeJob Ctx)) :
    (processNonempty r st k j0 rest).job_graph.graph.root =
      if k = r then some j0.job_identifier else st.job_graph.graph.root := by
  by_cases hk : k = r <;>
    simp [processNonempty, hk, graph_addEdgesFrom, graph_addNodesFrom]

theorem processNonempty_mem_edges (r : RecipeIdentifier) (st : CompileState Ctx)
    (k : RecipeIdentifier) (j0 : CascadeJob Ctx) (rest : List (CascadeJob Ctx))
    (e : JobIdentifier × JobIdentifier) :
    e ∈ (processNonempty r st k j0 rest).job_graph.edges ↔
      e ∈ st.job_graph.edges ∨ e ∈ withinEdges (j0 :: rest) := by
  by_cases hk : k = r <;>
    simp [processNonempty, hk, mem_edges_addEdgesFrom, edges_addNodesFrom, withinEdges]

theorem processNonempty_nodup (r : RecipeIdentifier) (st : CompileState Ctx)
    (k : RecipeIdentifier) (j0 : CascadeJob Ctx) (rest : List (CascadeJob Ctx))
    (h : st.job_graph.edges.Nodup) :
    (processNonempty r st k j0 rest).job_graph.edges.Nodup := by
  have hbase : (st.job_graph.addNodesFrom
      ((jobIds (j0 :: rest)).zip ((j0 :: rest).map some))).edges.Nodup := by
    rw [edges_addNodesFrom]
    exact h
  by_cases hk : k = r <;>
    simp [processNonempty, hk] <;>
    exact nodup_edges_addEdgesFrom _ _ hbase

theorem processRecipeNodes_edges (r : RecipeIdentifier)
    (l : List (RecipeIdentifier × List (CascadeJob Ctx))) :
    ∀ (st st2 : CompileState Ctx), processRecipeNodes r st l = .ok st2 →
      ∀ e, e ∈ st2.job_graph.edges ↔
        e ∈ st.job_graph.edges ∨ ∃ n ∈ l, e ∈ withinEdges n.2 := by
  induction l with
  | nil =>
    intro st st2 h e
    simp only [processRecipeNodes, Except.ok.injEq] at h
    subst h
    simp
  | cons n t ih =>
    intro st st2 h e
    rcases hn : n.2 with _ | ⟨j0, rest⟩
    · simp only [processRecipeNodes, processRecipeNode, hn] at h
      exact Except.noConfusion h
    · simp only [processRecipeNodes, processRecipeNode, hn] at h
      rw [ih _ _ h e, processNonempty_mem_edges]
      constructor
      · rintro ((h1 | h2) | ⟨m, hm, hw⟩)
        · exact Or.inl h1
        · exact Or.inr ⟨n, List.mem_cons_self n t, by rw [hn]; exact h2⟩
        · exact Or.inr ⟨m, List.mem_cons_of_mem n hm, hw⟩
      · rintro (h1 | ⟨m, hm, hw⟩)
        · exact Or.inl (Or.inl h1)
        · rcases List.mem_cons.mp hm with rfl | hm2
          · exact Or.inl (Or.inr (by rw [hn] at hw; exact hw))
          · exact Or.inr ⟨m, hm2, hw⟩

theorem processRecipeNodes_nodup (r : RecipeIdentifier)
    (l : List (RecipeIdentifier × List (CascadeJob Ctx))) :
    ∀ (st st2 : CompileState Ctx), processRecipeNodes r st l = .ok st2 →
      st.job_graph.edges.Nodup → st2.job_graph.edges.Nodup := by
  induction l with
  | nil =>
    intro st st2 h hd
    simp only [processRecipeNodes, Except.ok.injEq] at h
    subst h
    exact hd
  | cons n t ih =>
    intro st st2 h hd
    rcases hn : n.2 with _ | ⟨j0, rest⟩
    · simp only [processRecipeNodes, processRecipeNode, hn] at h
      exact Except.noConfusion h
    · simp only [processRecipeNodes, processRecipeNode, hn] at h
      exact ih _ _ h (processNonempty_nodup r st n.1 j0 rest hd)

theorem processRecipeNodes_root_preserved (r : RecipeIdentifier)
    (l : List (RecipeIdentifier × List (CascadeJob Ctx))) :
    ∀ (st st2 : CompileState Ctx), processRecipeNodes r st l = .ok st2 →
      r ∉ l.map Prod.fst →
      st2.job_graph.graph.root = st.job_graph.graph.root := by
  induction l with
  | nil =>
    intro st st2 h _
    simp only [processRecipeNodes, Except.ok.injEq] at h
    subst h
    rfl
  | cons n t ih =>
    intro st st2 h hr
    rcases hn : n.2 with _ | ⟨j0, rest⟩
    · simp only [processRecipeNodes, processRecipeNode, hn] at h
      exact Except.noConfusion h
    · simp only [processRecipeNodes, processRecipeNode, hn] at h
      have hne : n.1 ≠ r := by
        intro hcontra
        exact hr (by rw [← hcontra]; exact List.mem_map_of_mem Prod.fst (List.mem_cons_self n t))
      rw [ih _ _ h (fun hmem => hr (List.mem_cons_of_mem _ hmem)), processNonempty_root]
      simp [hne]

theorem processRecipeNodes_re_preserved (r : RecipeIdentifier)
    (l : List (RecipeIdentifier × List (CascadeJob Ctx))) :
    ∀ (st st2 : CompileState Ctx) (k : RecipeIdentifier),
      processRecipeNodes r st l = .ok st2 → k ∉ l.map Prod.fst →
      dictFind st2.recipe_edges k = dictFind st.recipe_edges k := by
  induction l with
  | nil =>
    intro st st2 k h _
    simp only [processRecipeNodes, Except.ok.injEq] at h
    subst h
    rfl
  | cons n t ih =>
    intro st st2 k h hk
    rcases hn : n.2 with _ | ⟨j0, rest⟩
    · simp only [processRecipeNodes, processRecipeNode, hn] at h
      exact Except.noConfusion h
    · simp only [processRecipeNodes, processRecipeNode, hn] at h
      have hne : k ≠ n.1 := by
        intro hcontra
        exact hk (by rw [hcontra]; exact List.mem_map_of_mem Prod.fst (List.mem_cons_self n t))
      rw [ih _ _ k h (fun hmem => hk (List.mem_cons_of_mem _ hmem)),
        processNonempty_recipe_edges, dictFind_dictSet_ne _ _ _ _ hne]

theorem processRecipeNodes_root_set (r : RecipeIdentifier)
    (l : List (RecipeIdentifier × List (CascadeJob Ctx))) :
    ∀ (st st2 : CompileState Ctx) (j0 : CascadeJob Ctx) (rest : List (CascadeJob Ctx)),
      processRecipeNodes r st l = .ok st2 → (l.map Prod.fst).Nodup →
      (r, j0 :: rest) ∈ l →
      st2.job_graph.graph.root = some j0.job_identifier := by
  induction l with
  | nil =>
    intro st st2 j0 rest h _ hmem
    exact absurd hmem (List.not_mem_nil _)
  | cons n t ih =>
    intro st st2 j0 rest h hnd hmem
    have hndt : (t.map Prod.fst).Nodup := (List.nodup_cons.mp hnd).2
    rcases List.mem_cons.mp hmem with heq | hmemt
    · have hn : n.2 = j0 :: rest := by rw [← heq]
      have hn1 : n.1 = r := by rw [← heq]
      simp only [processRecipeNodes, processRecipeNode, hn] at h
      have hnot : r ∉ t.map Prod.fst := by
        rw [← hn1]
        exact (List.nodup_cons.mp hnd).1
      rw [processRecipeNodes_root_preserved r t _ _ h hnot, processNonempty_root]
      simp [hn1]
    · rcases hn : n.2 with _ | ⟨j0b, restb⟩
      · simp only [processRecipeNodes, processRecipeNode, hn] at h
        exact Except.noConfusion h
      · simp only [processRecipeNodes, processRecipeNode, hn] at h
        exact ih _ _ j0 rest h hndt hmemt

theorem processRecipeNodes_re_set (r : RecipeIdentifier)
    (l : List (RecipeIdentifier × List (CascadeJob Ctx))) :
    ∀ (st st2 : CompileState Ctx) (k : RecipeIdentifier) (j0 : CascadeJob Ctx)
      (rest : List (CascadeJob Ctx)),
      processRecipeNodes r st l = .ok st2 → (l.map Prod.fst).Nodup →
      (k, j0 :: rest) ∈ l →
      dictFind st2.recipe_edges k =
        .ok (j0.job_identifier, (jobIds (j0 :: rest)).getLastD j0.job_identifier) := by
  induction l with
  | nil =>
    intro st st2 k j0 rest h _ hmem
    exact absurd hmem (List.not_mem_nil _)
  | cons n t ih =>
    intro st st2 k j0 rest h hnd hmem
    have hndt : (t.map Prod.fst).Nodup := (List.nodup_cons.mp hnd).2
    rcases List.mem_cons.mp hmem with heq | hmemt
    · have hn : n.2 = j0 :: rest := by rw [← heq]
      have hn1 : n.1 = k := by rw [← heq]
      simp only [processRecipeNodes, processRecipeNode, hn] at h
      have hnot : k ∉ t.map Prod.fst := by
        rw [← hn1]
        exact (List.nodup_cons.mp hnd).1
      rw [processRecipeNodes_re_preserved r t _ _ k h hnot,
        processNonempty_recipe_edges, hn1, dictFind_dictSet_self]
    · rcases hn : n.2 with _ | ⟨j0b, restb⟩
      · simp only [processRecipeNodes, processRecipeNode, hn] at h
        exact Except.noConfusion h
      · simp only [processRecipeNodes, processRecipeNode, hn] at h
        exact ih _ _ k j0 rest h hndt hmemt

theorem processRecipeNodes_ok (r : RecipeIdentifier)
    (l : List (RecipeIdentifier × List (CascadeJob Ctx))) :
    ∀ (st : CompileState Ctx), (∀ n ∈ l, n.2 ≠ []) →
      ∃ st2, processRecipeNodes r st l = .ok st2 := by
  induction l with
  | nil => exact fun st _ => ⟨st, rfl⟩
  | cons n t ih =>
    intro st hne
    rcases hn : n.2 with _ | ⟨j0, rest⟩
    · exact absurd hn (hne n (List.mem_cons_self n t))
    · obtain ⟨st2, h2⟩ := ih (processNonempty r st n.1 j0 rest)
        (fun m hm => hne m (List.mem_cons_of_mem n hm))
      exact ⟨st2, by simp only [processRecipeNodes, processRecipeNode, hn]; exact h2⟩

theorem processRecipeNodes_err (r : RecipeIdentifier)
    (l : List (RecipeIdentifier × List (CascadeJob Ctx))) :
    ∀ (st : CompileState Ctx), (∃ n ∈ l, n.2 = []) →
      ∃ rid, (rid, ([] : List (CascadeJob Ctx))) ∈ l ∧
        processRecipeNodes r st l = .error (.runtimeError (emptyRecipeMsg rid)) := by
  induction l with
  | nil =>
    rintro st ⟨n, hmem, _⟩
    exact absurd hmem (List.not_mem_nil _)
  | cons n t ih =>
    rintro st ⟨m, hmem, hm2⟩
    rcases hn : n.2 with _ | ⟨j0, rest⟩
    · refine ⟨n.1, ?_, ?_⟩
      · have : (n.1, n.2) ∈ n :: t := List.mem_cons_self n t
        rw [hn] at this
        exact this
      · simp only [processRecipeNodes, processRecipeNode, hn]
    · have hmemt : m ∈ t := by
        rcases List.mem_cons.mp hmem with rfl | hmt
        · rw [hm2] at hn
          exact absurd hn (List.cons_ne_nil j0 rest).symm
        · exact hmt
      obtain ⟨rid, hridmem, herr⟩ := ih (processNonempty r st n.1 j0 rest) ⟨m, hmemt, hm2⟩
      refine ⟨rid, List.mem_cons_of_mem n hridmem, ?_⟩
      simp only [processRecipeNodes, processRecipeNode, hn]
      exact herr

theorem crossEdges_ok (re : List (RecipeIdentifier × (JobIdentifier × JobIdentifier)))
    (l : List (RecipeIdentifier × RecipeIdentifier))
    (h : ∀ e ∈ l, ∃ pS pF, dictFind re e.1 = .ok pS ∧ dictFind re e.2 = .ok pF) :
    ∃ ce, crossEdges re l = .ok ce ∧
      ∀ x, x ∈ ce ↔ ∃ e ∈ l, ∃ pS pF, dictFind re e.1 = .ok pS ∧
        dictFind re e.2 = .ok pF ∧ x = (pS.2, pF.1) := by
  induction l with
  | nil => exact ⟨[], rfl, by simp⟩
  | cons e t ih =>
    obtain ⟨pS, pF, hS, hF⟩ := h e (List.mem_cons_self e t)
    obtain ⟨ce, hce, hchar⟩ := ih (fun x hx => h x (List.mem_cons_of_mem e hx))
    refine ⟨(pS.2, pF.1) :: ce, ?_, ?_⟩
    · simp only [crossEdges, hS, hF, hce]
    · intro x
      constructor
      · intro hx
        rcases List.mem_cons.mp hx with rfl | hxc
        · exact ⟨e, List.mem_cons_self e t, pS, pF, hS, hF, rfl⟩
        · obtain ⟨e2, he2, p2, q2, ha, hb, hc⟩ := (hchar x).mp hxc
          exact ⟨e2, List.mem_cons_of_mem e he2, p2, q2, ha, hb, hc⟩
      · rintro ⟨e2, he2, p2, q2, ha, hb, hc⟩
        rcases List.mem_cons.mp he2 with rfl | he2t
        · rw [hS] at ha
          rw [hF] at hb
          injection ha with ha
          injection hb with hb
          subst ha
          subst hb
          rw [hc]
          exact List.mem_cons_self _ _
        · exact List.mem_cons_of_mem _ ((hchar x).mpr ⟨e2, he2t, p2, q2, ha, hb, hc⟩)

/-- Reading of the boolean well-formedness hypothesis: every node of the
recipe graph has a non-empty job list. -/
theorem all_nonempty_of_bool (l : List (RecipeIdentifier × List (CascadeJob Ctx)))
    (h : l.all (fun n => !n.2.isEmpty) = true) : ∀ n ∈ l, n.2 ≠ [] := by
  intro n hn hnil
  have hb := List.all_eq_true.mp h n hn
  rw [hnil] at hb
  simp at hb

/-- After a successful loop, both boundary lookups of every recipe-graph
edge succeed: each endpoint is a recipe node, so `recipe_edges` holds its
boundary pair. -/
theorem compile_lookups (rg : RecipeGraph Ctx) (st2 : CompileState Ctx)
    (hne : ∀ n ∈ rg.nodes, n.2 ≠ [])
    (h2 : (rg.nodes.map Prod.fst).Nodup)
    (h3 : ∀ e ∈ rg.edges, e.1 ∈ rg.nodes.map Prod.fst ∧ e.2 ∈ rg.nodes.map Prod.fst)
    (hloop : processRecipeNodes rg.root {} rg.nodes = .ok st2) :
    ∀ e ∈ rg.edges, ∃ pS pF, dictFind st2.recipe_edges e.1 = .ok pS ∧
      dictFind st2.recipe_edges e.2 = .ok pF := by
  intro e he
  obtain ⟨hm1, hm2⟩ := h3 e he
  rcases List.mem_map.mp hm1 with ⟨n1, hn1, hfst1⟩
  rcases List.mem_map.mp hm2 with ⟨n2, hn2, hfst2⟩
  rcases hnn1 : n1.2 with _ | ⟨a1, t1⟩
  · exact absurd hnn1 (hne n1 hn1)
  rcases hnn2 : n2.2 with _ | ⟨a2, t2⟩
  · exact absurd hnn2 (hne n2 hn2)
  have hmem1 : (e.1, a1 :: t1) ∈ rg.nodes := by
    rw [← hfst1, ← hnn1]
    exact hn1
  have hmem2 : (e.2, a2 :: t2) ∈ rg.nodes := by
    rw [← hfst2, ← hnn2]
    exact hn2
  exact ⟨_, _,
    processRecipeNodes_re_set rg.root rg.nodes {} st2 e.1 a1 t1 hloop h2 hmem1,
    processRecipeNodes_re_set rg.root rg.nodes {} st2 e.2 a2 t2 hloop h2 hmem2⟩

/-! ## Claim theorems -/

/-- Claim C1: on a well-formed recipe graph (non-empty job lists, unique
recipe keys, edge endpoints that are nodes, the designated root among the
nodes with job list `j0 :: rest`), compilation terminates normally and
the job graph root attribute is the identifier of the first job of the
job list of the root recipe. -/
theorem claim_C1 (rg : RecipeGraph Ctx) (j0 : CascadeJob Ctx) (rest : List (CascadeJob Ctx))
    (h1 : rg.nodes.all (fun n => !n.2.isEmpty) = true)
    (h2 : (rg.nodes.map Prod.fst).Nodup)
    (h3 : ∀ e ∈ rg.edges, e.1 ∈ rg.nodes.map Prod.fst ∧ e.2 ∈ rg.nodes.map Prod.fst)
    (h4 : (rg.root, j0 :: rest) ∈ rg.nodes) :
    ∃ jg, recipe_graph_to_job_graph rg = .ok jg ∧
      jg.graph.root = some j0.job_identifier := by
  have hne := all_nonempty_of_bool rg.nodes h1
  obtain ⟨st2, hloop⟩ := processRecipeNodes_ok rg.root rg.nodes {} hne
  have hroot := processRecipeNodes_root_set rg.root rg.nodes {} st2 j0 rest hloop h2 h4
  obtain ⟨ce, hce, _⟩ := crossEdges_ok st2.recipe_edges rg.edges
    (compile_lookups rg st2 hne h2 h3 hloop)
  refine ⟨st2.job_graph.addEdgesFrom ce, ?_, ?_⟩
  · simp [recipe_graph_to_job_graph, hloop, hroot, hce]
  · rw [graph_addEdgesFrom]
    exact hroot

theorem claim_C1_witness :
    exRecipeGraph.nodes.all (fun n => !n.2.isEmpty) = true ∧
    (exRecipeGraph.nodes.map Prod.fst).Nodup ∧
    (∀ e ∈ exRecipeGraph.edges,
      e.1 ∈ exRecipeGraph.nodes.map Prod.fst ∧
        e.2 ∈ exRecipeGraph.nodes.map Prod.fst) ∧
    (exRecipeGraph.root, [exJob exRid1 "A", exJob exRid1 "B"]) ∈ exRecipeGraph.nodes ∧
    ∃ jg, recipe_graph_to_job_graph exRecipeGraph = .ok jg ∧
      jg.graph.root = some (exJob exRid1 "A").job_identifier :=
  ⟨rfl, by decide, by decide, List.mem_cons_self _ _,
   claim_C1 exRecipeGraph (exJob exRid1 "A") [exJob exRid1 "B"] rfl (by decide)
     (by decide) (List.mem_cons_self _ _)⟩

/-- Claim C2: on a well-formed recipe graph, compilation succeeds, the
edge list holds no duplicate, and an edge is in the compiled graph
exactly when it chains two consecutive jobs of the job list of some
recipe or joins, for some recipe-graph edge, the last job of the source
recipe to the first job of the destination recipe. -/
theorem claim_C2 (rg : RecipeGraph Ctx)
    (h1 : rg.nodes.all (fun n => !n.2.isEmpty) = true)
    (h2 : (rg.nodes.map Prod.fst).Nodup)
    (h3 : ∀ e ∈ rg.edges, e.1 ∈ rg.nodes.map Prod.fst ∧ e.2 ∈ rg.nodes.map Prod.fst)
    (h4 : rg.root ∈ rg.nodes.map Prod.fst) :
    ∃ jg, recipe_graph_to_job_graph rg = .ok jg ∧ jg.edges.Nodup ∧
      ∀ e : JobIdentifier × JobIdentifier,
        e ∈ jg.edges ↔
          ((∃ n ∈ rg.nodes, e ∈ withinEdges n.2) ∨
            (∃ re ∈ rg.edges, ∃ jlA jlB,
              (re.1, jlA) ∈ rg.nodes ∧ (re.2, jlB) ∈ rg.nodes ∧
              recipeOut jlA = some e.1 ∧ recipeIn jlB = some e.2)) := by
  have hne := all_nonempty_of_bool rg.nodes h1
  obtain ⟨st2, hloop⟩ := processRecipeNodes_ok rg.root rg.nodes {} hne
  rcases List.mem_map.mp h4 with ⟨nR, hnR, hfstR⟩
  rcases hnnR : nR.2 with _ | ⟨jR, tR⟩
  · exact absurd hnnR (hne nR hnR)
  have hmemR : (rg.root, jR :: tR) ∈ rg.nodes := by
    rw [← hfstR, ← hnnR]
    exact hnR
  have hroot := processRecipeNodes_root_set rg.root rg.nodes {} st2 jR tR hloop h2 hmemR
  obtain ⟨ce, hce, hchar⟩ := crossEdges_ok st2.recipe_edges rg.edges
    (compile_lookups rg st2 hne h2 h3 hloop)
  refine ⟨st2.job_graph.addEdgesFrom ce, ?_, ?_, ?_⟩
  · simp [recipe_graph_to_job_graph, hloop, hroot, hce]
  · exact nodup_edges_addEdgesFrom _ _
      (processRecipeNodes_nodup rg.root rg.nodes _ _ hloop List.nodup_nil)
  · intro e
    rw [mem_edges_addEdgesFrom, processRecipeNodes_edges rg.root rg.nodes {} st2 hloop e]
    constructor
    · rintro ((hfalse | hwithin) | hcross)
      · exact absurd hfalse (List.not_mem_nil e)
      · exact Or.inl hwithin
      · obtain ⟨re2, hre2, pS, pF, hS, hF, heq⟩ := (hchar e).mp hcross
        obtain ⟨hm1, hm2⟩ := h3 re2 hre2
        rcases List.mem_map.mp hm1 with ⟨n1, hn1, hfst1⟩
        rcases hnn1 : n1.2 with _ | ⟨a1, t1⟩
        · exact absurd hnn1 (hne n1 hn1)
        rcases List.mem_map.mp hm2 with ⟨n2, hn2, hfst2⟩
        rcases hnn2 : n2.2 with _ | ⟨a2, t2⟩
        · exact absurd hnn2 (hne n2 hn2)
        have hmem1 : (re2.1, a1 :: t1) ∈ rg.nodes := by
          rw [← hfst1, ← hnn1]
          exact hn1
        have hmem2 : (re2.2, a2 :: t2) ∈ rg.nodes := by
          rw [← hfst2, ← hnn2]
          exact hn2
        have hS2 := processRecipeNodes_re_set rg.root rg.nodes {} st2 re2.1 a1 t1
          hloop h2 hmem1
        have hF2 := processRecipeNodes_re_set rg.root rg.nodes {} st2 re2.2 a2 t2
          hloop h2 hmem2
        rw [hS] at hS2
        rw [hF] at hF2
        injection hS2 with hS2
        injection hF2 with hF2
        refine Or.inr ⟨re2, hre2, a1 :: t1, a2 :: t2, hmem1, hmem2, ?_, ?_⟩
        · rw [heq]
          show (jobIds (a1 :: t1)).getLast? = some pS.2
          rw [hS2]
          exact getLast?_cons_eq_getLastD a1.job_identifier (jobIds t1) a1.job_identifier
        · rw [heq]
          show some a2.job_identifier = some pF.1
          rw [hF2]
    · rintro (hwithin | ⟨re2, hre2, jlA, jlB, hmemA, hmemB, hOut, hIn⟩)
      · exact Or.inl (Or.inr hwithin)
      · rcases jlA with _ | ⟨a1, t1⟩
        · simp [recipeOut, jobIds] at hOut
        rcases jlB with _ | ⟨a2, t2⟩
        · simp [recipeIn, jobIds] at hIn
        have hS2 := processRecipeNodes_re_set rg.root rg.nodes {} st2 re2.1 a1 t1
          hloop h2 hmemA
        have hF2 := processRecipeNodes_re_set rg.root rg.nodes {} st2 re2.2 a2 t2
          hloop h2 hmemB
        have hOut2 : e.1 = (jobIds (a1 :: t1)).getLastD a1.job_identifier := by
          have hgl : (jobIds (a1 :: t1)).getLast? =
              some ((jobIds (a1 :: t1)).getLastD a1.job_identifier) :=
            getLast?_cons_eq_getLastD a1.job_identifier (jobIds t1) a1.job_identifier
          rw [show recipeOut (a1 :: t1) = (jobIds (a1 :: t1)).getLast? from rfl,
            hgl] at hOut
          injection hOut with hOut
          exact hOut.symm
        have hIn2 : e.2 = a2.job_identifier := by
          rw [show recipeIn (a2 :: t2) = some a2.job_identifier from rfl] at hIn
          injection hIn with hIn
          exact hIn.symm
        refine Or.inr ((hchar e).mpr ⟨re2, hre2,
          (a1.job_identifier, (jobIds (a1 :: t1)).getLastD a1.job_identifier),
          (a2.job_identifier, (jobIds (a2 :: t2)).getLastD a2.job_identifier),
          hS2, hF2, ?_⟩)
        show e = ((jobIds (a1 :: t1)).getLastD a1.job_identifier, a2.job_identifier)
        rw [← hOut2, ← hIn2]

theorem claim_C2_witness :
    exRecipeGraph.nodes.all (fun n => !n.2.isEmpty) = true ∧
    (exRecipeGraph.nodes.map Prod.fst).Nodup ∧
    (∀ e ∈ exRecipeGraph.edges,
      e.1 ∈ exRecipeGraph.nodes.map Prod.fst ∧
        e.2 ∈ exRecipeGraph.nodes.map Prod.fst) ∧
    exRecipeGraph.root ∈ exRecipeGraph.nodes.map Prod.fst ∧
    ∃ jg, recipe_graph_to_job_graph exRecipeGraph = .ok jg ∧ jg.edges.Nodup ∧
      ∀ e : JobIdentifier × JobIdentifier,
        e ∈ jg.edges ↔
          ((∃ n ∈ exRecipeGraph.nodes, e ∈ withinEdges n.2) ∨
            (∃ re ∈ exRecipeGraph.edges, ∃ jlA jlB,
              (re.1, jlA) ∈ exRecipeGraph.nodes ∧ (re.2, jlB) ∈ exRecipeGraph.nodes ∧
              recipeOut jlA = some e.1 ∧ recipeIn jlB = some e.2)) :=
  ⟨rfl, by decide, by decide, by decide,
   claim_C2 exRecipeGraph rfl (by decide) (by decide) (by decide)⟩

/-- Claim C3: a recipe graph with an empty job list on some node makes
compilation fail with the `RuntimeError` naming that recipe (the failure
the spec names `MalformedRecipeError`), and no job graph is produced. -/
theorem claim_C3 (rg : RecipeGraph Ctx) (h : ∃ n ∈ rg.nodes, n.2 = []) :
    ∃ rid, (rid, ([] : List (CascadeJob Ctx))) ∈ rg.nodes ∧
      recipe_graph_to_job_graph rg = .error (.runtimeError (emptyRecipeMsg rid)) := by
  obtain ⟨rid, hmem, herr⟩ := processRecipeNodes_err rg.root rg.nodes {} h
  exact ⟨rid, hmem, by simp only [recipe_graph_to_job_graph, herr]⟩

theorem claim_C3_witness :
    (∃ n ∈ exEmptyRecipeGraph.nodes, n.2 = ([] : List (CascadeJob Unit))) ∧
    ∃ rid, (rid, ([] : List (CascadeJob Unit))) ∈ exEmptyRecipeGraph.nodes ∧
      recipe_graph_to_job_graph exEmptyRecipeGraph =
        .error (.runtimeError (emptyRecipeMsg rid)) :=
  ⟨⟨(exRid1, []), List.mem_cons_self _ _, rfl⟩,
   claim_C3 exEmptyRecipeGraph ⟨(exRid1, []), List.mem_cons_self _ _, rfl⟩⟩

/-- Claim C5: when some input is missing and `check_inputs` holds,
`mock_run` raises `RuntimeError` carrying the missing-input mapping (the
failure the spec names `JobNotReadyError`) and mocks no output. -/
theorem claim_C5 (job : CascadeJob Ctx) (ctx : Ctx)
    (h : job.input_missing ctx ≠ []) :
    job.mock_run ctx true = ([], some (.runtimeErrorData (job.input_missing ctx))) := by
  rcases hm : job.input_missing ctx with _ | ⟨a, t⟩
  · exact absurd hm h
  · simp [CascadeJob.mock_run, hm]

theorem claim_C5_witness :
    exJobMissing.input_missing () ≠ [] ∧
      exJobMissing.mock_run () true =
        ([], some (.runtimeErrorData [("draw_file", "file missing")])) :=
  ⟨by decide, (claim_C5 exJobMissing () (by decide)).trans (by decide)⟩

/-- Claim C6: with `check_inputs` false, `mock_run` raises nothing and
invokes `mock` on every declared output exactly once, in declaration
order, whatever the input entities validate to (the run ignores the
inputs entirely on this path). -/
theorem claim_C6 (job : CascadeJob Ctx) (ctx : Ctx)
    (h : (job.outputs.map Prod.fst).Nodup) :
    job.mock_run ctx false = (job.outputs.map Prod.fst, none) ∧
      ∀ nm ∈ job.outputs.map Prod.fst, (job.mock_run ctx false).1.count nm = 1 := by
  refine ⟨rfl, fun nm hnm => ?_⟩
  exact List.count_eq_one_of_mem h hnm

theorem claim_C6_witness :
    (exJobMissing.outputs.map Prod.fst).Nodup ∧
      (exJobMissing.mock_run () false = (exJobMissing.outputs.map Prod.fst, none) ∧
        ∀ nm ∈ exJobMissing.outputs.map Prod.fst,
          (exJobMissing.mock_run () false).1.count nm = 1) :=
  ⟨by decide, claim_C6 exJobMissing () (by decide)⟩

/-- Claim C7: constructing a `RecipeIdentifier` fails (an `assert`
failure, the construction-time validation the spec names
`ValidationError`) exactly when `sex` is not an allowed token or `recipe`
is one, and succeeds for every other integer location and string
recipe. -/
theorem claim_C7 (l : Int) (recipe sex : String) :
    (sex ∈ allowed_sexes ∧ recipe ∉ allowed_sexes →
      RecipeIdentifier.init l recipe sex = .ok ⟨l, recipe, sex⟩) ∧
    (sex ∉ allowed_sexes ∨ recipe ∈ allowed_sexes →
      RecipeIdentifier.init l recipe sex = .error (.assertionError "")) := by
  constructor
  · rintro ⟨hs, hr⟩
    simp [RecipeIdentifier.init, hs, hr]
  · rintro (hs | hr)
    · simp [RecipeIdentifier.init, hs]
    · by_cases hs : sex ∈ allowed_sexes <;> simp [RecipeIdentifier.init, hs, hr]

theorem claim_C7_witness :
    (("both" ∈ allowed_sexes ∧ "split_sex" ∉ allowed_sexes) ∧
      RecipeIdentifier.init 6 "split_sex" "both" = .ok ⟨6, "split_sex", "both"⟩) ∧
    (("male" ∉ allowed_sexes ∨ "male" ∈ allowed_sexes) ∧
      RecipeIdentifier.init 6 "male" "male" = .error (.assertionError "")) ∧
    (("unknown" ∉ allowed_sexes ∨ "split_sex" ∈ allowed_sexes) ∧
      RecipeIdentifier.init 6 "split_sex" "unknown" = .error (.assertionError "")) :=
  ⟨⟨by decide, (claim_C7 6 "split_sex" "both").1 (by decide)⟩,
   ⟨by decide, (claim_C7 6 "male" "male").2 (by decide)⟩,
   ⟨by decide, (claim_C7 6 "split_sex" "unknown").2 (by decide)⟩⟩

/-- Claim C8, counterexample: the code renders
`location_recipe_sex_name`, not the claimed `location_sex_recipe_name`:
on `(1, "fit", "both", "draw")` the code produces `1_fit_both_draw`, the
claimed order produces `1_both_fit_draw`. -/
theorem claim_C8_counterexample :
    jobIdentifierStr { location_id := 1, recipe := "fit", sex := "both", name := "draw" } ≠
      specRenderLocationSexRecipeName
        { location_id := 1, recipe := "fit", sex := "both", name := "draw" } := by
  decide

/-- Claim C8, amended: `JobIdentifier.__str__` joins the fields in the
order location, recipe, sex, name, separated by underscores. -/
theorem claim_C8_amended (j : JobIdentifier) :
    jobIdentifierStr j =
      joinUnderscore [toString j.location_id, j.recipe, j.sex, j.name] := by
  simp [jobIdentifierStr, joinUnderscore, strAppendAssoc]

/-- Claim C9, counterexample: selection does not leave the parent graph
unchanged: on a job graph whose attribute dict lacks an execution
context, running the selection changes the parent graph-level attributes
(the networkx subgraph shares the parent attribute dict, so storing the
execution context on the subgraph stores it on the parent too). -/
theorem claim_C9_counterexample :
    (sub_graph_to_run ({} : JobGraph Nat) {} 7).2.graph.execution_context ≠
      ({} : JobGraph Nat).graph.execution_context := by
  decide

/-- Claim C9, amended: selection leaves the nodes, edges and `root`
attribute of the parent graph unchanged, but the attachment of the
execution context is visible through the shared attribute dict of the
parent graph, whose `execution_context` entry afterwards holds the
attached context. -/
theorem claim_C9_amended (g : JobGraph Ctx) (args : SubGraphArgs) (ec : Ctx) :
    (sub_graph_to_run g args ec).2.nodes = g.nodes ∧
    (sub_graph_to_run g args ec).2.edges = g.edges ∧
    (sub_graph_to_run g args ec).2.graph.root = g.graph.root ∧
    (sub_graph_to_run g args ec).2.graph.execution_context = some ec :=
  ⟨rfl, rfl, rfl, rfl⟩

/-- Claim C10, counterexample: with the three recipe fields agreeing,
`recipe == job` does not return `True`: CPython dispatches to the
subclass `JobIdentifier.__eq__` first (reflected priority for a proper
subclass of the left operand), which reads `other.name` and raises
`AttributeError`. -/
theorem claim_C10_counterexample :
    pyEqOp (.recipeObj { location_id := 1, recipe := "fit", sex := "both" })
        (.jobObj { location_id := 1, recipe := "fit", sex := "both", name := "draw" }) ≠
      .ok true ∧
    pyEqOp (.recipeObj { location_id := 1, recipe := "fit", sex := "both" })
        (.jobObj { location_id := 1, recipe := "fit", sex := "both", name := "draw" }) =
      .error (.attributeError noNameAttributeMsg) := by
  constructor
  · decide
  · decide

/-- Claim C10, amended: for a plain `RecipeIdentifier` and a
`JobIdentifier` agreeing on location, recipe and sex, the body of
`RecipeIdentifier.__eq__` does compare only the three recipe fields and
yields true, but the `==` operator in either direction dispatches to
`JobIdentifier.__eq__` (reflected priority for the subclass) and raises
`AttributeError` on the missing `name`; the comparison never falls back
to returning `False`. -/
theorem claim_C10_amended (l : Int) (r s nm : String) :
    recipeFieldsEq (.recipeObj ⟨l, r, s⟩) (.jobObj ⟨l, r, s, nm⟩) = true ∧
    pyEqOp (.recipeObj ⟨l, r, s⟩) (.jobObj ⟨l, r, s, nm⟩) =
      .error (.attributeError noNameAttributeMsg) ∧
    pyEqOp (.jobObj ⟨l, r, s, nm⟩) (.recipeObj ⟨l, r, s⟩) =
      .error (.attributeError noNameAttributeMsg) := by
  refine ⟨?_, ?_, ?_⟩ <;>
    simp [pyEqOp, identDunderEq, recipeFieldsEq, identLocation, identRecipe,
      identSex, identName]

/-- Claim C4: sub-graph selection keeps exactly the nodes matching every
supplied predicate (an omitted selector imposing no constraint), and
exactly the parent edges whose two endpoints are both selected. -/
theorem claim_C4 (g : JobGraph Ctx) (args : SubGraphArgs) (ec : Ctx) :
    (∀ n : JobIdentifier,
        n ∈ (sub_graph_to_run g args ec).1.nodes.map Prod.fst ↔
          n ∈ g.nodes.map Prod.fst ∧ matchesPredicates args n = true) ∧
    (∀ e : JobIdentifier × JobIdentifier,
        e ∈ (sub_graph_to_run g args ec).1.edges ↔
          e ∈ g.edges ∧
            (e.1 ∈ g.nodes.map Prod.fst ∧ matchesPredicates args e.1 = true) ∧
            (e.2 ∈ g.nodes.map Prod.fst ∧ matchesPredicates args e.2 = true)) := by
  constructor
  · intro n
    have hmain : (sub_graph_to_run g args ec).1.nodes =
        g.nodes.filter
          (fun p => decide (p.1 ∈ filterNodes args (g.nodes.map Prod.fst))) := rfl
    rw [hmain]
    constructor
    · intro hmem
      rcases List.mem_map.mp hmem with ⟨p, hp, rfl⟩
      have hfil := List.mem_filter.mp hp
      have hsel := (mem_filterNodes args (g.nodes.map Prod.fst) p.1).mp
        (of_decide_eq_true hfil.2)
      exact ⟨List.mem_map.mpr ⟨p, hfil.1, rfl⟩, hsel.2⟩
    · rintro ⟨hmem, hm⟩
      rcases List.mem_map.mp hmem with ⟨p, hp, rfl⟩
      refine List.mem_map.mpr ⟨p, List.mem_filter.mpr ⟨hp, ?_⟩, rfl⟩
      exact decide_eq_true ((mem_filterNodes args (g.nodes.map Prod.fst) p.1).mpr
        ⟨List.mem_map.mpr ⟨p, hp, rfl⟩, hm⟩)
  · intro e
    have hmain : (sub_graph_to_run g args ec).1.edges =
        g.edges.filter
          (fun e => decide (e.1 ∈ filterNodes args (g.nodes.map Prod.fst) ∧
            e.2 ∈ filterNodes args (g.nodes.map Prod.fst))) := rfl
    rw [hmain]
    constructor
    · intro hmem
      have hfil := List.mem_filter.mp hmem
      obtain ⟨h1, h2⟩ := of_decide_eq_true hfil.2
      exact ⟨hfil.1, (mem_filterNodes args (g.nodes.map Prod.fst) e.1).mp h1,
        (mem_filterNodes args (g.nodes.map Prod.fst) e.2).mp h2⟩
    · rintro ⟨he, hm1, hm2⟩
      refine List.mem_filter.mpr ⟨he, decide_eq_true ⟨?_, ?_⟩⟩
      · exact (mem_filterNodes args (g.nodes.map Prod.fst) e.1).mpr hm1
      · exact (mem_filterNodes args (g.nodes.map Prod.fst) e.2).mpr hm2

end Cascade
